import Mathlib

/-!
Verification of the chess rules engine in `chess.py` (class `Board`: attack
detection, pseudo-legal move generation, legality filtering, move application).

The embedding is shallow: the 8×8 Python list-of-lists board becomes a
`List (List Cell)`, tuple coordinates become `Int × Int` (Python ints), the
`Move` dataclass becomes a structure, and each `Board` method becomes a pure
function from the old state to its result (for `make_move`, to the new state).
Python indexing errors/negative-index wraparound cannot occur on the inputs the
theorems quantify over (all indices are bounds-checked in the source on those
paths); the total access functions below default to an empty cell outside the
board.
-/

inductive Color | w | b
deriving DecidableEq, Repr

inductive Kind | P | N | B | R | Q | K
deriving DecidableEq, Repr

/-- A cell of the grid: Python uses the sentinel `"."` for empty and a
`(color, piece)` tuple otherwise; here `none` is the empty cell. -/
abbrev Cell := Option (Color × Kind)

abbrev Grid := List (List Cell)

/-- The `Move` dataclass. The Python field `to` is a Lean keyword, so it is
named `toSq` here; all other field names match the source. -/
structure Move where
  fr : Int × Int
  toSq : Int × Int
  promotion : Option Kind
  is_castle : Bool
  is_en_passant : Bool
deriving DecidableEq, Repr

/-- The `self.castling` dict with keys "wK", "wQ", "bK", "bQ". -/
structure Castling where
  wK : Bool
  wQ : Bool
  bK : Bool
  bQ : Bool
deriving DecidableEq, Repr

structure Board where
  board : Grid
  turn : Color
  castling : Castling
  en_passant : Option (Int × Int)
deriving DecidableEq, Repr

/-! ### List access helpers (Python `l[i]` and `l[i] = v` on in-range indices) -/

def nth {α : Type} (l : List α) (n : Nat) (d : α) : α :=
  match l, n with
  | [], _ => d
  | x :: _, 0 => x
  | _ :: xs, n+1 => nth xs n d

def setn {α : Type} (l : List α) (n : Nat) (a : α) : List α :=
  match l, n with
  | [], _ => []
  | _ :: xs, 0 => a :: xs
  | x :: xs, n+1 => x :: setn xs n a

/-- Read `board[r][c]`; empty cell when off the 8×8 grid. -/
def getc (g : Grid) (r c : Int) : Cell :=
  if 0 ≤ r ∧ 0 ≤ c then nth (nth g r.toNat []) c.toNat none else none

/-- Write `board[r][c] = v`; unchanged when the index is negative or past the
end of a list. -/
def setc (g : Grid) (r c : Int) (v : Cell) : Grid :=
  if 0 ≤ r ∧ 0 ≤ c then setn g r.toNat (setn (nth g r.toNat []) c.toNat v) else g

/-- The grid really is 8 rows of 8 cells (always true of boards built by the
program). -/
def WFg (g : Grid) : Prop := g.length = 8 ∧ ∀ row ∈ g, row.length = 8

instance : DecidablePred WFg := fun g => by unfold WFg; infer_instance

/-- `in_bounds(r, c)` from the source. -/
def in_bounds (r c : Int) : Bool := decide (0 ≤ r ∧ r < 8 ∧ 0 ≤ c ∧ c < 8)

/-! ### Board queries -/

/-- `Board.piece`. -/
def piece (b : Board) (r c : Int) : Cell := getc b.board r c

/-- `Board.color_at`. -/
def color_at (b : Board) (r c : Int) : Option Color := (getc b.board r c).map (·.1)

/-- `Board.king_pos`: row-major scan for `(color, "K")`. -/
def king_pos (b : Board) (color : Color) : Option (Int × Int) :=
  (List.range 8).findSome? fun r =>
    (List.range 8).findSome? fun c =>
      if getc b.board (r : Int) (c : Int) = some (color, Kind.K)
      then some ((r : Int), (c : Int)) else none

def knightOffsets : List (Int × Int) := [(-2,-1),(-2,1),(-1,-2),(-1,2),(1,-2),(1,2),(2,-1),(2,1)]
def diagDirs : List (Int × Int) := [(-1,-1),(-1,1),(1,-1),(1,1)]
def orthoDirs : List (Int × Int) := [(-1,0),(1,0),(0,-1),(0,1)]
def kingOffsets : List (Int × Int) := [(-1,-1),(-1,0),(-1,1),(0,-1),(0,1),(1,-1),(1,0),(1,1)]

/-- Pawn clause of `Board.is_attacked` (lines 66-70): the source computes
`dr = -1 if by_color == WHITE else 1` and tests `board[r+dr][c±1]`. -/
def pawnClause (b : Board) (r c : Int) (by_color : Color) : Bool :=
  let dr : Int := if by_color = Color.w then -1 else 1
  [(-1 : Int), 1].any fun dc =>
    in_bounds (r + dr) (c + dc) &&
      decide (getc b.board (r + dr) (c + dc) = some (by_color, Kind.P))

def knightClause (b : Board) (r c : Int) (by_color : Color) : Bool :=
  knightOffsets.any fun d =>
    in_bounds (r + d.1) (c + d.2) &&
      decide (getc b.board (r + d.1) (c + d.2) = some (by_color, Kind.N))

/-- One ray scan of `Board.is_attacked`: walk until the edge or the first
occupied square; a hit counts only if that square holds `(by_color, k1)` or
`(by_color, k2)`.  Fuel 8 covers any ray inside an 8×8 board. -/
def rayAtt (b : Board) (by_color : Color) (k1 k2 : Kind) (dr dc : Int) :
    Nat → Int → Int → Bool
  | 0, _, _ => false
  | fuel+1, r, c =>
    if in_bounds r c then
      match getc b.board r c with
      | some pc => decide (pc = (by_color, k1) ∨ pc = (by_color, k2))
      | none => rayAtt b by_color k1 k2 dr dc fuel (r + dr) (c + dc)
    else false

def kingClause (b : Board) (r c : Int) (by_color : Color) : Bool :=
  kingOffsets.any fun d =>
    in_bounds (r + d.1) (c + d.2) &&
      decide (getc b.board (r + d.1) (c + d.2) = some (by_color, Kind.K))

/-- `Board.is_attacked(r, c, by_color)`. -/
def is_attacked (b : Board) (r c : Int) (by_color : Color) : Bool :=
  pawnClause b r c by_color
  || knightClause b r c by_color
  || diagDirs.any (fun d => rayAtt b by_color Kind.B Kind.Q d.1 d.2 8 (r + d.1) (c + d.2))
  || orthoDirs.any (fun d => rayAtt b by_color Kind.R Kind.Q d.1 d.2 8 (r + d.1) (c + d.2))
  || kingClause b r c by_color

/-- `Board.in_check`.  The source unpacks `king_pos` without a `None` check and
would raise there; boards reached in play always have both kings, and every
theorem below that depends on `in_check` concerns such boards. -/
def in_check (b : Board) (color : Color) : Bool :=
  match king_pos b color with
  | some (kr, kc) => is_attacked b kr kc (if color = Color.b then Color.w else Color.b)
  | none => false

/-! ### Pseudo-legal move generation -/

def promoKinds : List Kind := [Kind.Q, Kind.R, Kind.B, Kind.N]

/-- Pawn advance direction: `-1 if color == WHITE else 1`. -/
def pawnDir (color : Color) : Int := if color = Color.w then -1 else 1

/-- Pawn block of `Board.generate_pseudo` (lines 109-134): forward pushes (with
the double push nested under the single-push emptiness test), the two diagonal
captures, then the en-passant capture. -/
def pawnMoves (b : Board) (color : Color) (r c : Int) : List Move :=
  let dir := pawnDir color
  let rr := r + dir
  let pushes :=
    if in_bounds rr c = true ∧ getc b.board rr c = none then
      (if rr = 0 ∨ rr = 7 then
        promoKinds.map (fun promo => Move.mk (r,c) (rr,c) (some promo) false false)
      else [Move.mk (r,c) (rr,c) none false false])
      ++
      (let rr2 := r + 2*dir
       if ((r = 6 ∧ color = Color.w) ∨ (r = 1 ∧ color = Color.b)) ∧ getc b.board rr2 c = none
       then [Move.mk (r,c) (rr2,c) none false false] else [])
    else []
  let caps := [(-1 : Int), 1].flatMap fun dc =>
    let cc := c + dc
    if in_bounds rr cc = true ∧ getc b.board rr cc ≠ none ∧ color_at b rr cc ≠ some color then
      (if rr = 0 ∨ rr = 7 then
        promoKinds.map (fun promo => Move.mk (r,c) (rr,cc) (some promo) false false)
      else [Move.mk (r,c) (rr,cc) none false false])
    else []
  let eps :=
    match b.en_passant with
    | some (er, ec) =>
      if er = r + dir ∧ (ec - c).natAbs = 1
      then [Move.mk (r,c) (er,ec) none false true] else []
    | none => []
  pushes ++ caps ++ eps

def knightMoves (b : Board) (color : Color) (r c : Int) : List Move :=
  knightOffsets.flatMap fun d =>
    if in_bounds (r + d.1) (c + d.2) = true ∧ color_at b (r + d.1) (c + d.2) ≠ some color
    then [Move.mk (r,c) (r + d.1, c + d.2) none false false] else []

/-- One sliding ray of move generation: emit quiet moves through empty squares,
one capture on the first enemy square, stop on any occupied square. -/
def slide (b : Board) (color : Color) (q : Int × Int) (dr dc : Int) :
    Nat → Int → Int → List Move
  | 0, _, _ => []
  | fuel+1, r, c =>
    if in_bounds r c then
      if getc b.board r c = none then
        Move.mk q (r,c) none false false :: slide b color q dr dc fuel (r + dr) (c + dc)
      else if color_at b r c ≠ some color then
        [Move.mk q (r,c) none false false]
      else []
    else []

def slideMoves (b : Board) (color : Color) (r c : Int) (dirs : List (Int × Int)) : List Move :=
  dirs.flatMap fun d => slide b color (r,c) d.1 d.2 8 (r + d.1) (c + d.2)

def kingSteps (b : Board) (color : Color) (r c : Int) : List Move :=
  kingOffsets.flatMap fun d =>
    if in_bounds (r + d.1) (c + d.2) = true ∧ color_at b (r + d.1) (c + d.2) ≠ some color
    then [Move.mk (r,c) (r + d.1, c + d.2) none false false] else []

/-- Castling block of `Board.generate_pseudo` (lines 161-175): reached only
when the king is not currently in check; king side then queen side, each
gated on the rights flag, the emptiness of the in-between squares, and the
attack detector on the transit/destination squares. -/
def castleMoves (b : Board) (color : Color) : List Move :=
  if in_check b color = false then
    if color = Color.w then
      (if b.castling.wK = true ∧ getc b.board 7 5 = none ∧ getc b.board 7 6 = none
          ∧ is_attacked b 7 5 Color.b = false ∧ is_attacked b 7 6 Color.b = false
       then [Move.mk (7,4) (7,6) none true false] else [])
      ++
      (if b.castling.wQ = true ∧ getc b.board 7 1 = none ∧ getc b.board 7 2 = none
          ∧ getc b.board 7 3 = none
          ∧ is_attacked b 7 3 Color.b = false ∧ is_attacked b 7 2 Color.b = false
       then [Move.mk (7,4) (7,2) none true false] else [])
    else
      (if b.castling.bK = true ∧ getc b.board 0 5 = none ∧ getc b.board 0 6 = none
          ∧ is_attacked b 0 5 Color.w = false ∧ is_attacked b 0 6 Color.w = false
       then [Move.mk (0,4) (0,6) none true false] else [])
      ++
      (if b.castling.bQ = true ∧ getc b.board 0 1 = none ∧ getc b.board 0 2 = none
          ∧ getc b.board 0 3 = none
          ∧ is_attacked b 0 3 Color.w = false ∧ is_attacked b 0 2 Color.w = false
       then [Move.mk (0,4) (0,2) none true false] else [])
  else []

/-- Moves generated at one square holding a piece of the side to move. -/
def squareMoves (b : Board) (color : Color) (r c : Int) : List Move :=
  match getc b.board r c with
  | none => []
  | some (_, Kind.P) => pawnMoves b color r c
  | some (_, Kind.N) => knightMoves b color r c
  | some (_, Kind.B) => slideMoves b color r c diagDirs
  | some (_, Kind.R) => slideMoves b color r c orthoDirs
  | some (_, Kind.Q) => slideMoves b color r c (diagDirs ++ orthoDirs)
  | some (_, Kind.K) => kingSteps b color r c ++ castleMoves b color

/-- `Board.generate_pseudo(color)`: row-major scan of the squares whose piece
has the given color. -/
def generate_pseudo (b : Board) (color : Color) : List Move :=
  (List.range 8).flatMap fun r =>
    (List.range 8).flatMap fun c =>
      if color_at b (r : Int) (c : Int) = some color
      then squareMoves b color (r : Int) (c : Int) else []

/-! ### Move application -/

/-- Castling-rights update when the moving piece is a king (lines 194-196). -/
def castleRightsAfterKing (cs : Castling) (p : Kind) (color : Color) : Castling :=
  if p = Kind.K then
    if color = Color.w then { cs with wK := false, wQ := false }
    else { cs with bK := false, bQ := false }
  else cs

/-- Castling-rights update when the moving piece is a rook (lines 197-201). -/
def castleRightsAfterRook (cs : Castling) (p : Kind) (fr fc : Int) : Castling :=
  if p = Kind.R then
    let cs1 := if fr = 7 ∧ fc = 0 then { cs with wQ := false } else cs
    let cs2 := if fr = 7 ∧ fc = 7 then { cs1 with wK := false } else cs1
    let cs3 := if fr = 0 ∧ fc = 0 then { cs2 with bQ := false } else cs2
    if fr = 0 ∧ fc = 7 then { cs3 with bK := false } else cs3
  else cs

/-- Castling-rights update on a capture landing on a rook home square
(lines 202-206). -/
def castleRightsAfterCapture (cs : Castling) (captured : Bool) (tr tc : Int) : Castling :=
  if captured = true then
    let cs1 := if tr = 7 ∧ tc = 0 then { cs with wQ := false } else cs
    let cs2 := if tr = 7 ∧ tc = 7 then { cs1 with wK := false } else cs1
    let cs3 := if tr = 0 ∧ tc = 0 then { cs2 with bQ := false } else cs2
    if tr = 0 ∧ tc = 7 then { cs3 with bK := false } else cs3
  else cs

/-- The castling-rights field after `make_move`: king update, rook update,
capture update, in source order (`captured` is read from the pre-move board). -/
def moved_rights (b : Board) (mv : Move) (color : Color) (p : Kind) : Castling :=
  let captured := (getc b.board mv.toSq.1 mv.toSq.2).isSome
  castleRightsAfterCapture
    (castleRightsAfterRook (castleRightsAfterKing b.castling p color) p mv.fr.1 mv.fr.2)
    captured mv.toSq.1 mv.toSq.2

/-- The grid after `make_move` (lines 208-227): en-passant victim removal,
source cleared, destination set, promotion replacement (the source promotes on
`tr in (0,7)` for either color), castle rook relocation. -/
def moved_grid (b : Board) (mv : Move) (color : Color) (p : Kind) : Grid :=
  let fr := mv.fr.1; let fc := mv.fr.2; let tr := mv.toSq.1; let tc := mv.toSq.2
  let g := b.board
  let g := if mv.is_en_passant = true then
      setc g (tr + (if color = Color.w then 1 else -1)) tc none else g
  let g := setc g fr fc none
  let g := setc g tr tc (some (color, p))
  let g := if p = Kind.P ∧ (tr = 0 ∨ tr = 7) then
      setc g tr tc (some (color, mv.promotion.getD Kind.Q)) else g
  if mv.is_castle = true then
    if tr = 7 ∧ tc = 6 then setc (setc g 7 5 (getc g 7 7)) 7 7 none
    else if tr = 7 ∧ tc = 2 then setc (setc g 7 3 (getc g 7 0)) 7 0 none
    else if tr = 0 ∧ tc = 6 then setc (setc g 0 5 (getc g 0 7)) 0 7 none
    else if tr = 0 ∧ tc = 2 then setc (setc g 0 3 (getc g 0 0)) 0 0 none
    else g
  else g

/-- `Board.make_move`: returns the mutated state.  The source unpacks the
source cell without a `None` check (it would raise on an empty source square);
that case is modelled as a no-op and every theorem about `make_move` assumes an
occupied source square.  `en_passant` is cleared unconditionally at the top of
the method and re-set at the end for a two-square pawn move, with the passed
square computed by Python floor division `(tr+fr)//2` (here `Int.fdiv`). -/
def make_move (b : Board) (mv : Move) : Board :=
  match getc b.board mv.fr.1 mv.fr.2 with
  | none => b
  | some (color, p) =>
    { board := moved_grid b mv color p
      turn := if b.turn = Color.b then Color.w else Color.b
      castling := moved_rights b mv color p
      en_passant :=
        if p = Kind.P ∧ (mv.toSq.1 - mv.fr.1).natAbs = 2
        then some ((mv.toSq.1 + mv.fr.1).fdiv 2, mv.fr.2) else none }

/-! ### Cloning and the legality filter -/

/-- `Board.clone`: fresh Board with `[row[:] for row in self.board]` and copies
of the scalar fields. -/
def clone (b : Board) : Board :=
  { board := b.board.map (fun row => row)
    turn := b.turn
    castling := b.castling
    en_passant := b.en_passant }

/-- `Board.legal_moves(color)`: keep a pseudo-legal move iff playing it on a
clone does not leave `color` in check. -/
def legal_moves (b : Board) (color : Color) : List Move :=
  (generate_pseudo b color).filter fun mv => in_check (make_move (clone b) mv) color = false

/-- `legal_moves` with the post-call state of `self` made explicit: the method
body only reads `self` (all simulation happens on the clone), so the state it
leaves behind is the input board. -/
def legal_moves_st (b : Board) (color : Color) : List Move × Board :=
  (legal_moves b color, b)

/-! ### The initial position (`Board.__init__` / `Board._setup`) -/

def backRank : List Kind := [Kind.R, Kind.N, Kind.B, Kind.Q, Kind.K, Kind.B, Kind.N, Kind.R]

def initial_board : Board :=
  { board :=
      [ backRank.map (fun k => some (Color.b, k)),
        List.replicate 8 (some (Color.b, Kind.P)),
        List.replicate 8 none,
        List.replicate 8 none,
        List.replicate 8 none,
        List.replicate 8 none,
        List.replicate 8 (some (Color.w, Kind.P)),
        backRank.map (fun k => some (Color.w, k)) ]
    turn := Color.w
    castling := { wK := true, wQ := true, bK := true, bQ := true }
    en_passant := none }

/-! ### Spec-side attack definitions

The spec (§4.1) describes the pawn clause of the attack detector as: look for a
`by_color` pawn "one rank behind `square` in `by_color`'s advancing direction,
both adjacent files".  White advances toward row 0 (§3: row 0 is black's back
rank), so a white pawn attacking `square` stands on `row(square)+1`; a black
pawn on `row(square)-1`.  These definitions follow the spec's words and are
compared against the source's detector, whose pawn clause searches the
opposite rank. -/

def pawn_attacks_spec (b : Board) (r c : Int) (by_color : Color) : Bool :=
  let back : Int := if by_color = Color.w then 1 else -1
  [(-1 : Int), 1].any fun dc =>
    in_bounds (r + back) (c + dc) &&
      decide (getc b.board (r + back) (c + dc) = some (by_color, Kind.P))

/-- Attack per the spec's per-piece rules: identical to the source's detector
except for the direction searched by the pawn clause. -/
def is_attacked_spec (b : Board) (r c : Int) (by_color : Color) : Bool :=
  pawn_attacks_spec b r c by_color
  || knightClause b r c by_color
  || diagDirs.any (fun d => rayAtt b by_color Kind.B Kind.Q d.1 d.2 8 (r + d.1) (c + d.2))
  || orthoDirs.any (fun d => rayAtt b by_color Kind.R Kind.Q d.1 d.2 8 (r + d.1) (c + d.2))
  || kingClause b r c by_color

/-- Farthest rank for a pawn of the given color (promotion rank). -/
def promoRow (color : Color) : Int := if color = Color.w then 0 else 7

/-- Back rank of the given color (the rank its castles start and end on). -/
def homeRow (color : Color) : Int := if color = Color.w then 7 else 0

/-! ### Concrete positions used by the claim theorems -/

def emptyGrid : Grid := List.replicate 8 (List.replicate 8 none)

/-- Lone white pawn on d5 (row 3, col 3). -/
def bPawnBehind : Board :=
  { board := setc emptyGrid 3 3 (some (Color.w, Kind.P))
    turn := Color.w, castling := ⟨false, false, false, false⟩, en_passant := none }

/-- Lone white pawn on b7 (row 1, col 1). -/
def bPawnAhead : Board :=
  { board := setc emptyGrid 1 1 (some (Color.w, Kind.P))
    turn := Color.w, castling := ⟨false, false, false, false⟩, en_passant := none }

/-- White king b1, black pawn d2, black king a8. -/
def bKingWalk : Board :=
  { board := setc (setc (setc emptyGrid 7 1 (some (Color.w, Kind.K)))
      6 3 (some (Color.b, Kind.P))) 0 0 (some (Color.b, Kind.K))
    turn := Color.w, castling := ⟨false, false, false, false⟩, en_passant := none }

def mvKingWalk : Move := Move.mk (7,1) (7,2) none false false

/-- White king e1 and rook h1 with the king-side right, black pawn g2
(attacking f1 and h1 under standard rules), black king a8. -/
def bCastleBug : Board :=
  { board := setc (setc (setc (setc emptyGrid 7 4 (some (Color.w, Kind.K)))
      7 7 (some (Color.w, Kind.R))) 6 6 (some (Color.b, Kind.P))) 0 0 (some (Color.b, Kind.K))
    turn := Color.w, castling := ⟨true, false, false, false⟩, en_passant := none }

/-- Fool's mate move sequence: f2f3, e7e5, g2g4, d8h4 in (row, col) coordinates
with row 0 = rank 8 and col 0 = file a. -/
def mvF2F3 : Move := Move.mk (6,5) (5,5) none false false
def mvE7E5 : Move := Move.mk (1,4) (3,4) none false false
def mvG2G4 : Move := Move.mk (6,6) (4,6) none false false
def mvD8H4 : Move := Move.mk (0,3) (4,7) none false false

def bFools1 : Board := make_move initial_board mvF2F3
def bFools2 : Board := make_move bFools1 mvE7E5
def bFools3 : Board := make_move bFools2 mvG2G4
def bFools4 : Board := make_move bFools3 mvD8H4

/-- White pawn b7 with a (not reachable in play) en-passant target on the last
rank: the generator emits a single en-passant capture onto the farthest rank
with no promotion. -/
def bEpPromo : Board :=
  { board := setc emptyGrid 1 2 (some (Color.w, Kind.P))
    turn := Color.w, castling := ⟨false, false, false, false⟩, en_passant := some (0,3) }

/-! ### Claims C1-C5 -/

/-- Claim C1 (code bug): the spec says `is_attacked(board, s, by_color)` is
true exactly when a `by_color` pawn stands one rank behind `s` in `by_color`'s
advancing direction on an adjacent file.  The source computes
`dr = -1 if by_color == WHITE else 1` and searches row `r+dr`, which is one
rank in FRONT of `s`: a white pawn on d5 standardly attacks c6 = (2,2) but the
detector returns false, while a white pawn on b7 does not standardly attack
c6 but the detector returns true.  The spec-side clause
`pawn_attacks_spec` disagrees with the code on both boards. -/
theorem pawn_attack_direction_bug :
    is_attacked bPawnBehind 2 2 Color.w = false
    ∧ pawn_attacks_spec bPawnBehind 2 2 Color.w = true
    ∧ is_attacked bPawnAhead 2 2 Color.w = true
    ∧ pawn_attacks_spec bPawnAhead 2 2 Color.w = false := by
  refine ⟨by decide, by decide, by decide, by decide⟩

/-- Claim C2 (code bug): `legal_moves` only filters with the source's
(pawn-inverted) detector, so it can keep a move after which the mover's king
stands on a square a standard-chess pawn attack covers.  On `bKingWalk`,
Kb1-c1 is kept by `legal_moves`, yet afterwards the white king on c1 is
attacked by the black pawn on d2 per the spec's attack rules. -/
theorem legal_move_into_spec_pawn_attack :
    mvKingWalk ∈ legal_moves bKingWalk Color.w
    ∧ king_pos (make_move bKingWalk mvKingWalk) Color.w = some (7,2)
    ∧ is_attacked_spec (make_move bKingWalk mvKingWalk) 7 2 Color.b = true := by
  refine ⟨by decide, by decide, by decide⟩

/-- Claim C3 (code bug): castling must be absent when a transit square is
attacked, including by an opposing pawn.  On `bCastleBug` the black pawn on g2
attacks f1 = (7,5) under the spec's rules, yet the king-side castle is in
`legal_moves` because the source's detector searches the wrong rank for
pawns. -/
theorem castle_through_spec_pawn_attack :
    Move.mk (7,4) (7,6) none true false ∈ legal_moves bCastleBug Color.w
    ∧ is_attacked_spec bCastleBug 7 5 Color.b = true := by
  refine ⟨by decide, by decide⟩

/-- Claim C4: applying the Fool's mate sequence f2f3, e7e5, g2g4, d8h4 from
the initial position — each move legal for the side to move at that point —
yields a position where white has no legal moves and is in check. -/
theorem fools_mate_checkmate :
    mvF2F3 ∈ legal_moves initial_board Color.w
    ∧ mvE7E5 ∈ legal_moves bFools1 Color.b
    ∧ mvG2G4 ∈ legal_moves bFools2 Color.w
    ∧ mvD8H4 ∈ legal_moves bFools3 Color.b
    ∧ legal_moves bFools4 Color.w = []
    ∧ in_check bFools4 Color.w = true := by
  refine ⟨by decide, by decide, by decide, by decide, by decide, by decide⟩

/-- Claim C5: the freshly constructed initial board (white to move, all four
castling rights set, no en-passant target) admits exactly 20 legal moves for
white. -/
theorem initial_position_twenty_moves :
    initial_board.turn = Color.w
    ∧ initial_board.castling = ⟨true, true, true, true⟩
    ∧ initial_board.en_passant = none
    ∧ (legal_moves initial_board Color.w).length = 20 := by
  refine ⟨rfl, rfl, rfl, by decide⟩

/-! ### Access/update lemmas for the grid -/

theorem nth_setn_self {α : Type} (l : List α) (n : Nat) (a d : α) (h : n < l.length) :
    nth (setn l n a) n d = a := by
  induction l generalizing n with
  | nil => simp at h
  | cons x xs ih =>
    cases n with
    | zero => rfl
    | succ m => exact ih m (by simpa using h)

theorem nth_setn_other {α : Type} (l : List α) (n m : Nat) (a d : α) (h : n ≠ m) :
    nth (setn l n a) m d = nth l m d := by
  induction l generalizing n m with
  | nil => rfl
  | cons x xs ih =>
    cases n with
    | zero => cases m with
      | zero => exact absurd rfl h
      | succ k => rfl
    | succ n2 => cases m with
      | zero => rfl
      | succ k => exact ih n2 k (by omega)

theorem length_setn {α : Type} (l : List α) (n : Nat) (a : α) :
    (setn l n a).length = l.length := by
  induction l generalizing n with
  | nil => rfl
  | cons x xs ih => cases n with
    | zero => rfl
    | succ m => simp [setn, ih]

theorem mem_setn {α : Type} {l : List α} {n : Nat} {a x : α} (h : x ∈ setn l n a) :
    x = a ∨ x ∈ l := by
  induction l generalizing n with
  | nil => simp [setn] at h
  | cons y ys ih =>
    cases n with
    | zero =>
      rcases List.mem_cons.mp h with h1 | h1
      · exact Or.inl h1
      · exact Or.inr (List.mem_cons_of_mem _ h1)
    | succ m =>
      rcases List.mem_cons.mp h with h1 | h1
      · exact Or.inr (h1 ▸ List.mem_cons_self _ _)
      · rcases ih h1 with h2 | h2
        · exact Or.inl h2
        · exact Or.inr (List.mem_cons_of_mem _ h2)

theorem nth_mem {α : Type} (l : List α) (n : Nat) (d : α) (h : n < l.length) :
    nth l n d ∈ l := by
  induction l generalizing n with
  | nil => simp at h
  | cons x xs ih => cases n with
    | zero => exact List.mem_cons_self _ _
    | succ m => exact List.mem_cons_of_mem _ (ih m (by simpa using h))

theorem setn_ge {α : Type} (l : List α) (n : Nat) (a : α) (h : l.length ≤ n) :
    setn l n a = l := by
  induction l generalizing n with
  | nil => rfl
  | cons x xs ih => cases n with
    | zero => simp at h
    | succ m => simp [setn]; exact ih m (by simpa using h)

theorem WFg_setc {g : Grid} (hw : WFg g) (r c : Int) (v : Cell) : WFg (setc g r c v) := by
  unfold setc
  split
  · by_cases hlen : r.toNat < g.length
    · constructor
      · rw [length_setn]; exact hw.1
      · intro row hrow
        rcases mem_setn hrow with h1 | h1
        · subst h1
          rw [length_setn]
          exact hw.2 _ (nth_mem _ _ _ hlen)
        · exact hw.2 _ h1
    · rw [setn_ge _ _ _ (by omega)]
      exact hw
  · exact hw

theorem getc_setc_same {g : Grid} {r c : Int} (v : Cell) (hw : WFg g)
    (hr : 0 ≤ r ∧ r < 8) (hc : 0 ≤ c ∧ c < 8) :
    getc (setc g r c v) r c = v := by
  have hg : r.toNat < g.length := by rw [hw.1]; omega
  have hrow : (nth g r.toNat []).length = 8 := hw.2 _ (nth_mem _ _ _ hg)
  unfold getc setc
  rw [if_pos ⟨hr.1, hc.1⟩, if_pos ⟨hr.1, hc.1⟩]
  rw [nth_setn_self _ _ _ _ hg]
  exact nth_setn_self _ _ _ _ (by rw [hrow]; omega)

theorem getc_setc_other {g : Grid} {r c r2 c2 : Int} (v : Cell)
    (h : r ≠ r2 ∨ c ≠ c2) :
    getc (setc g r c v) r2 c2 = getc g r2 c2 := by
  unfold getc setc
  by_cases hs : 0 ≤ r ∧ 0 ≤ c
  · rw [if_pos hs]
    by_cases hg : 0 ≤ r2 ∧ 0 ≤ c2
    · rw [if_pos hg, if_pos hg]
      by_cases hrr : r.toNat = r2.toNat
      · have heq : r = r2 := by omega
        subst heq
        have hcc : c ≠ c2 := by tauto
        by_cases hlen : r.toNat < g.length
        · rw [nth_setn_self _ _ _ _ hlen]
          exact nth_setn_other _ _ _ _ _ (by omega)
        · rw [setn_ge _ _ _ (by omega)]
      · rw [nth_setn_other _ _ _ _ _ hrr]
    · rw [if_neg hg, if_neg hg]
  · rw [if_neg hs]

/-! ### Claim C8: castling rights are monotone -/

/-- Pointwise order on the rights: every flag true on the left is true on the
right (i.e. the left is obtained from the right only by clearing flags). -/
def rightsLe (a b : Castling) : Prop :=
  (a.wK = true → b.wK = true) ∧ (a.wQ = true → b.wQ = true)
  ∧ (a.bK = true → b.bK = true) ∧ (a.bQ = true → b.bQ = true)

theorem rightsLe_refl (a : Castling) : rightsLe a a :=
  ⟨id, id, id, id⟩

theorem rightsLe_trans {a b c : Castling} (h1 : rightsLe a b) (h2 : rightsLe b c) :
    rightsLe a c :=
  ⟨fun h => h2.1 (h1.1 h), fun h => h2.2.1 (h1.2.1 h),
   fun h => h2.2.2.1 (h1.2.2.1 h), fun h => h2.2.2.2 (h1.2.2.2 h)⟩

theorem rightsLe_afterKing (cs : Castling) (p : Kind) (color : Color) :
    rightsLe (castleRightsAfterKing cs p color) cs := by
  unfold castleRightsAfterKing
  split
  · split <;> exact ⟨by simp, by simp, by simp, by simp⟩
  · exact rightsLe_refl cs

theorem rightsLe_afterRook (cs : Castling) (p : Kind) (fr fc : Int) :
    rightsLe (castleRightsAfterRook cs p fr fc) cs := by
  unfold castleRightsAfterRook
  split
  · unfold rightsLe
    split_ifs <;> simp_all
  · exact rightsLe_refl cs

theorem rightsLe_afterCapture (cs : Castling) (captured : Bool) (tr tc : Int) :
    rightsLe (castleRightsAfterCapture cs captured tr tc) cs := by
  unfold castleRightsAfterCapture
  split
  · unfold rightsLe
    split_ifs <;> simp_all
  · exact rightsLe_refl cs

/-- Claim C8: each of the four castling-rights booleans only ever transitions
true to false under `make_move` — a flag that is false before the call is
false after it, and no call sets a flag back to true.  (On an empty source
square the source method raises before touching any flag; the embedding
returns the board unchanged, so the statement is unconditional.) -/
theorem castling_rights_monotone (b : Board) (mv : Move) :
    ((make_move b mv).castling.wK = true → b.castling.wK = true)
    ∧ ((make_move b mv).castling.wQ = true → b.castling.wQ = true)
    ∧ ((make_move b mv).castling.bK = true → b.castling.bK = true)
    ∧ ((make_move b mv).castling.bQ = true → b.castling.bQ = true) := by
  unfold make_move
  cases hg : getc b.board mv.fr.1 mv.fr.2 with
  | none => exact rightsLe_refl b.castling
  | some pc =>
    cases pc with
    | mk color p =>
      show rightsLe (moved_rights b mv color p) b.castling
      unfold moved_rights
      exact rightsLe_trans (rightsLe_afterCapture _ _ _ _)
        (rightsLe_trans (rightsLe_afterRook _ _ _ _) (rightsLe_afterKing _ _ _))

/-! ### Claim C9: the legality filter leaves the board unchanged -/

/-- Claim C9: `legal_moves` does not mutate the queried board.  In the
state-passing embedding the method's post-state is the input board itself
(`legal_moves_st`), every observable field included; the clone handed to each
simulated `make_move` is a complete, equal copy of the board (`clone b = b`),
so the simulations run on independent state. -/
theorem legal_moves_preserves_board (b : Board) (color : Color) :
    (legal_moves_st b color).2 = b
    ∧ (∀ r c : Int, getc ((legal_moves_st b color).2).board r c = getc b.board r c)
    ∧ ((legal_moves_st b color).2).turn = b.turn
    ∧ ((legal_moves_st b color).2).castling = b.castling
    ∧ ((legal_moves_st b color).2).en_passant = b.en_passant
    ∧ clone b = b := by
  refine ⟨rfl, fun r c => rfl, rfl, rfl, rfl, ?_⟩
  unfold clone
  cases b with
  | mk g t cs ep => simp

/-! ### Structure of generated moves

These lemmas characterise where a move in `generate_pseudo` can come from and
what shape it must have; they drive the proofs of the claims about
`en_passant`, promotion and the two-cell frame of `make_move`. -/

theorem mem_generate_pseudo {b : Board} {color : Color} {m : Move}
    (h : m ∈ generate_pseudo b color) :
    ∃ r c : Nat, r < 8 ∧ c < 8 ∧ color_at b (r : Int) (c : Int) = some color ∧
      m ∈ squareMoves b color (r : Int) (c : Int) := by
  unfold generate_pseudo at h
  rw [List.mem_flatMap] at h
  obtain ⟨r, hr, h⟩ := h
  rw [List.mem_flatMap] at h
  obtain ⟨c, hc, h⟩ := h
  rw [List.mem_range] at hr
  rw [List.mem_range] at hc
  by_cases hcol : color_at b (r : Int) (c : Int) = some color
  · rw [if_pos hcol] at h
    exact ⟨r, c, hr, hc, hcol, h⟩
  · rw [if_neg hcol] at h
    simp at h

theorem mem_generate_pseudo_of {b : Board} {color : Color} {r c : Nat}
    (hr : r < 8) (hc : c < 8) (hcol : color_at b (r : Int) (c : Int) = some color)
    {m : Move} (h : m ∈ squareMoves b color (r : Int) (c : Int)) :
    m ∈ generate_pseudo b color := by
  unfold generate_pseudo
  rw [List.mem_flatMap]
  refine ⟨r, List.mem_range.mpr hr, ?_⟩
  rw [List.mem_flatMap]
  refine ⟨c, List.mem_range.mpr hc, ?_⟩
  rw [if_pos hcol]
  exact h

theorem mem_castleMoves {b : Board} {color : Color} {m : Move}
    (h : m ∈ castleMoves b color) :
    m.is_castle = true ∧ m.promotion = none ∧ m.is_en_passant = false ∧
    m.fr = (homeRow color, 4) ∧ m.toSq.1 = homeRow color ∧ (m.toSq.2 = 6 ∨ m.toSq.2 = 2) := by
  unfold castleMoves at h
  by_cases hchk : in_check b color = false
  · rw [if_pos hchk] at h
    cases color with
    | w =>
      rw [if_pos rfl] at h
      rw [List.mem_append] at h
      rcases h with h | h <;> split at h <;> simp_all [homeRow]
    | b =>
      rw [if_neg (by decide)] at h
      rw [List.mem_append] at h
      rcases h with h | h <;> split at h <;> simp_all [homeRow]
  · rw [if_neg hchk] at h
    simp at h

theorem mem_knightMoves {b : Board} {color : Color} {r c : Int} {m : Move}
    (h : m ∈ knightMoves b color r c) :
    m.fr = (r, c) ∧ m.promotion = none ∧ m.is_castle = false ∧ m.is_en_passant = false ∧
    in_bounds m.toSq.1 m.toSq.2 = true ∧ color_at b m.toSq.1 m.toSq.2 ≠ some color ∧
    (m.toSq.1 ≠ r ∨ m.toSq.2 ≠ c) := by
  unfold knightMoves at h
  rw [List.mem_flatMap] at h
  obtain ⟨d, hd, h⟩ := h
  by_cases hcnd : in_bounds (r + d.1) (c + d.2) = true ∧ color_at b (r + d.1) (c + d.2) ≠ some color
  · rw [if_pos hcnd] at h
    rw [List.mem_singleton] at h
    subst h
    refine ⟨rfl, rfl, rfl, rfl, hcnd.1, hcnd.2, ?_⟩
    fin_cases hd <;> simp
  · rw [if_neg hcnd] at h
    simp at h

theorem mem_kingSteps {b : Board} {color : Color} {r c : Int} {m : Move}
    (h : m ∈ kingSteps b color r c) :
    m.fr = (r, c) ∧ m.promotion = none ∧ m.is_castle = false ∧ m.is_en_passant = false ∧
    in_bounds m.toSq.1 m.toSq.2 = true ∧ color_at b m.toSq.1 m.toSq.2 ≠ some color ∧
    (m.toSq.1 ≠ r ∨ m.toSq.2 ≠ c) := by
  unfold kingSteps at h
  rw [List.mem_flatMap] at h
  obtain ⟨d, hd, h⟩ := h
  by_cases hcnd : in_bounds (r + d.1) (c + d.2) = true ∧ color_at b (r + d.1) (c + d.2) ≠ some color
  · rw [if_pos hcnd] at h
    rw [List.mem_singleton] at h
    subst h
    refine ⟨rfl, rfl, rfl, rfl, hcnd.1, hcnd.2, ?_⟩
    fin_cases hd <;> simp
  · rw [if_neg hcnd] at h
    simp at h

theorem mem_slide {b : Board} {color : Color} {q : Int × Int} {dr dc : Int}
    (fuel : Nat) :
    ∀ (r c : Int) (m : Move), m ∈ slide b color q dr dc fuel r c →
      m.fr = q ∧ m.promotion = none ∧ m.is_castle = false ∧ m.is_en_passant = false ∧
      in_bounds m.toSq.1 m.toSq.2 = true ∧ color_at b m.toSq.1 m.toSq.2 ≠ some color ∧
      ∃ k : Nat, m.toSq.1 = r + (k : Int) * dr ∧ m.toSq.2 = c + (k : Int) * dc := by
  induction fuel with
  | zero => intro r c m h; simp [slide] at h
  | succ n ih =>
    intro r c m h
    unfold slide at h
    split at h
    · split at h
      · next hempty =>
        rcases List.mem_cons.mp h with rfl | h2
        · refine ⟨rfl, rfl, rfl, rfl, by assumption, ?_, 0, by simp, by simp⟩
          show color_at b r c ≠ some color
          unfold color_at
          rw [hempty]
          simp
        · obtain ⟨h1, h2p, h3, h4, h5, h6, k, hk1, hk2⟩ := ih (r + dr) (c + dc) m h2
          refine ⟨h1, h2p, h3, h4, h5, h6, k + 1, ?_, ?_⟩
          · rw [hk1]; push_cast; ring
          · rw [hk2]; push_cast; ring
      · split at h
        · next hcol =>
          rw [List.mem_singleton] at h
          subst h
          exact ⟨rfl, rfl, rfl, rfl, by assumption, hcol, 0, by simp, by simp⟩
        · simp at h
    · simp at h

theorem mem_slideMoves {b : Board} {color : Color} {r c : Int} {dirs : List (Int × Int)}
    {m : Move} (h : m ∈ slideMoves b color r c dirs)
    (hd : ∀ d ∈ dirs, (d.1 = 0 ∨ d.1 = 1 ∨ d.1 = -1) ∧ (d.2 = 0 ∨ d.2 = 1 ∨ d.2 = -1)
      ∧ ¬(d.1 = 0 ∧ d.2 = 0)) :
    m.fr = (r, c) ∧ m.promotion = none ∧ m.is_castle = false ∧ m.is_en_passant = false ∧
    in_bounds m.toSq.1 m.toSq.2 = true ∧ color_at b m.toSq.1 m.toSq.2 ≠ some color ∧
    (m.toSq.1 ≠ r ∨ m.toSq.2 ≠ c) := by
  unfold slideMoves at h
  rw [List.mem_flatMap] at h
  obtain ⟨d, hdm, h⟩ := h
  obtain ⟨h1, h2, h3, h4, h5, h6, k, hk1, hk2⟩ := mem_slide 8 (r + d.1) (c + d.2) m h
  obtain ⟨hd1, hd2, hd3⟩ := hd d hdm
  refine ⟨h1, h2, h3, h4, h5, h6, ?_⟩
  by_cases hz : d.1 = 0
  · right
    rw [hk2]
    rcases hd2 with g | g | g
    · exact absurd ⟨hz, g⟩ hd3
    · rw [g]; omega
    · rw [g]; omega
  · left
    rw [hk1]
    rcases hd1 with g | g | g
    · exact absurd g hz
    · rw [g]; omega
    · rw [g]; omega

theorem mem_squareMoves_cases {b : Board} {color : Color} {r c : Int} {m : Move}
    (h : m ∈ squareMoves b color r c) :
    ∃ γ : Color,
      (getc b.board r c = some (γ, Kind.P) ∧ m ∈ pawnMoves b color r c)
      ∨ (getc b.board r c = some (γ, Kind.N) ∧ m ∈ knightMoves b color r c)
      ∨ (getc b.board r c = some (γ, Kind.B) ∧ m ∈ slideMoves b color r c diagDirs)
      ∨ (getc b.board r c = some (γ, Kind.R) ∧ m ∈ slideMoves b color r c orthoDirs)
      ∨ (getc b.board r c = some (γ, Kind.Q) ∧ m ∈ slideMoves b color r c (diagDirs ++ orthoDirs))
      ∨ (getc b.board r c = some (γ, Kind.K)
          ∧ (m ∈ kingSteps b color r c ∨ m ∈ castleMoves b color)) := by
  unfold squareMoves at h
  split at h
  · simp at h
  · next γ heq => exact ⟨γ, Or.inl ⟨heq, h⟩⟩
  · next γ heq => exact ⟨γ, Or.inr (Or.inl ⟨heq, h⟩)⟩
  · next γ heq => exact ⟨γ, Or.inr (Or.inr (Or.inl ⟨heq, h⟩))⟩
  · next γ heq => exact ⟨γ, Or.inr (Or.inr (Or.inr (Or.inl ⟨heq, h⟩)))⟩
  · next γ heq => exact ⟨γ, Or.inr (Or.inr (Or.inr (Or.inr (Or.inl ⟨heq, h⟩))))⟩
  · next γ heq =>
    rw [List.mem_append] at h
    exact ⟨γ, Or.inr (Or.inr (Or.inr (Or.inr (Or.inr ⟨heq, h⟩))))⟩

theorem mem_pawnMoves_cases {b : Board} {color : Color} {r c : Int} {m : Move}
    (hc : 0 ≤ c ∧ c < 8) (h : m ∈ pawnMoves b color r c) :
    m.fr = (r, c) ∧ m.is_castle = false ∧
    ((m.is_en_passant = true ∧ m.promotion = none ∧ m.toSq.1 = r + pawnDir color) ∨
     (m.is_en_passant = false ∧ in_bounds m.toSq.1 m.toSq.2 = true ∧
       color_at b m.toSq.1 m.toSq.2 ≠ some color ∧
       ((m.toSq.1 = r + pawnDir color ∧
          ((¬(m.toSq.1 = 0 ∨ m.toSq.1 = 7) ∧ m.promotion = none) ∨
           ((m.toSq.1 = 0 ∨ m.toSq.1 = 7) ∧ ∃ k, k ∈ promoKinds ∧ m.promotion = some k))) ∨
        (m.toSq = (r + 2 * pawnDir color, c) ∧ m.promotion = none ∧
          ¬(m.toSq.1 = 0 ∨ m.toSq.1 = 7) ∧
          ((r = 6 ∧ color = Color.w) ∨ (r = 1 ∧ color = Color.b)))))) := by
  simp only [pawnMoves] at h
  simp only [List.mem_append] at h
  rcases h with (h | h) | h
  · -- forward pushes
    split at h
    case isFalse => simp at h
    case isTrue hP =>
      rw [List.mem_append] at h
      rcases h with h | h
      · split at h
        case isTrue hrr =>
          rw [List.mem_map] at h
          obtain ⟨k, hk, rfl⟩ := h
          refine ⟨rfl, rfl, Or.inr ⟨rfl, hP.1, ?_, Or.inl ⟨rfl, Or.inr ⟨hrr, k, hk, rfl⟩⟩⟩⟩
          show color_at b (r + pawnDir color) c ≠ some color
          unfold color_at
          rw [hP.2]
          simp
        case isFalse hrr =>
          rw [List.mem_singleton] at h
          subst h
          refine ⟨rfl, rfl, Or.inr ⟨rfl, hP.1, ?_, Or.inl ⟨rfl, Or.inl ⟨hrr, rfl⟩⟩⟩⟩
          show color_at b (r + pawnDir color) c ≠ some color
          unfold color_at
          rw [hP.2]
          simp
      · split at h
        case isFalse => simp at h
        case isTrue hD =>
          rw [List.mem_singleton] at h
          subst h
          refine ⟨rfl, rfl, Or.inr ⟨rfl, ?_, ?_, Or.inr ⟨rfl, rfl, ?_, hD.1⟩⟩⟩
          · show in_bounds (r + 2 * pawnDir color) c = true
            rcases hD.1 with ⟨hr6, hcw⟩ | ⟨hr1, hcb⟩
            · subst hr6; subst hcw; simp [in_bounds, pawnDir]; omega
            · subst hr1; subst hcb; simp [in_bounds, pawnDir]; omega
          · show color_at b (r + 2 * pawnDir color) c ≠ some color
            unfold color_at
            rw [hD.2]
            simp
          · show ¬(r + 2 * pawnDir color = 0 ∨ r + 2 * pawnDir color = 7)
            rcases hD.1 with ⟨hr6, hcw⟩ | ⟨hr1, hcb⟩
            · subst hr6; subst hcw; decide
            · subst hr1; subst hcb; decide
  · -- diagonal captures
    rw [List.mem_flatMap] at h
    obtain ⟨d, hd, h⟩ := h
    split at h
    case isFalse => simp at h
    case isTrue hC =>
      split at h
      case isTrue hrr =>
        rw [List.mem_map] at h
        obtain ⟨k, hk, rfl⟩ := h
        exact ⟨rfl, rfl, Or.inr ⟨rfl, hC.1, hC.2.2, Or.inl ⟨rfl, Or.inr ⟨hrr, k, hk, rfl⟩⟩⟩⟩
      case isFalse hrr =>
        rw [List.mem_singleton] at h
        subst h
        exact ⟨rfl, rfl, Or.inr ⟨rfl, hC.1, hC.2.2, Or.inl ⟨rfl, Or.inl ⟨hrr, rfl⟩⟩⟩⟩
  · -- en passant
    split at h
    · split at h
      · next hE =>
        rw [List.mem_singleton] at h
        subst h
        exact ⟨rfl, rfl, Or.inl ⟨rfl, rfl, hE.1⟩⟩
      · simp at h
    · simp at h

theorem pawnMoves_promo_complete {b : Board} {color : Color} {r c : Int} {m : Move}
    (h : m ∈ pawnMoves b color r c) (hep : m.is_en_passant = false)
    (hto : m.toSq.1 = promoRow color) :
    (∃ k, k ∈ promoKinds ∧ m = Move.mk (r, c) m.toSq (some k) false false) ∧
    (∀ k, k ∈ promoKinds → Move.mk (r, c) m.toSq (some k) false false ∈ pawnMoves b color r c) := by
  have hpr : promoRow color = 0 ∨ promoRow color = 7 := by
    cases color <;> simp [promoRow]
  simp only [pawnMoves, List.mem_append] at h
  rcases h with (h | h) | h
  · -- forward pushes
    split at h
    case isFalse => simp at h
    case isTrue hP =>
      rcases List.mem_append.mp h with h | h
      · split at h
        case isTrue hrr =>
          rw [List.mem_map] at h
          obtain ⟨k, hk, rfl⟩ := h
          constructor
          · exact ⟨k, hk, rfl⟩
          · intro k2 hk2
            simp only [pawnMoves, List.mem_append]
            left; left
            rw [if_pos hP, List.mem_append]
            left
            rw [if_pos hrr, List.mem_map]
            exact ⟨k2, hk2, rfl⟩
        case isFalse hrr =>
          rw [List.mem_singleton] at h
          subst h
          apply absurd _ hrr
          show r + pawnDir color = 0 ∨ r + pawnDir color = 7
          have h2 : r + pawnDir color = promoRow color := hto
          rw [h2]
          exact hpr
      · split at h
        case isFalse => simp at h
        case isTrue hD =>
          rw [List.mem_singleton] at h
          subst h
          exfalso
          have h2 : r + 2 * pawnDir color = promoRow color := hto
          rcases hD.1 with ⟨hr6, hcw⟩ | ⟨hr1, hcb⟩
          · subst hr6; subst hcw; simp [pawnDir, promoRow] at h2
          · subst hr1; subst hcb; simp [pawnDir, promoRow] at h2
  · -- diagonal captures
    rw [List.mem_flatMap] at h
    obtain ⟨d, hd, h⟩ := h
    split at h
    case isFalse => simp at h
    case isTrue hC =>
      split at h
      case isTrue hrr =>
        rw [List.mem_map] at h
        obtain ⟨k, hk, rfl⟩ := h
        constructor
        · exact ⟨k, hk, rfl⟩
        · intro k2 hk2
          simp only [pawnMoves, List.mem_append]
          left; right
          rw [List.mem_flatMap]
          refine ⟨d, hd, ?_⟩
          rw [if_pos hC, if_pos hrr, List.mem_map]
          exact ⟨k2, hk2, rfl⟩
      case isFalse hrr =>
        rw [List.mem_singleton] at h
        subst h
        apply absurd _ hrr
        show r + pawnDir color = 0 ∨ r + pawnDir color = 7
        have h2 : r + pawnDir color = promoRow color := hto
        rw [h2]
        exact hpr
  · -- en passant excluded
    split at h
    · split at h
      · next hE =>
        rw [List.mem_singleton] at h
        subst h
        simp at hep
      · simp at h
    · simp at h

theorem make_move_fields {b : Board} {mv : Move} {pcc : Color} {pck : Kind}
    (hsrc : getc b.board mv.fr.1 mv.fr.2 = some (pcc, pck)) :
    make_move b mv =
      { board := moved_grid b mv pcc pck
        turn := if b.turn = Color.b then Color.w else Color.b
        castling := moved_rights b mv pcc pck
        en_passant := if pck = Kind.P ∧ (mv.toSq.1 - mv.fr.1).natAbs = 2
          then some ((mv.toSq.1 + mv.fr.1).fdiv 2, mv.fr.2) else none } := by
  unfold make_move
  rw [hsrc]

/-- A pawn double push: the source square holds the mover's pawn and the
destination is two ranks ahead of it on the same file. -/
def isDoublePush (b : Board) (color : Color) (mv : Move) : Prop :=
  getc b.board mv.fr.1 mv.fr.2 = some (color, Kind.P)
  ∧ mv.toSq.1 = mv.fr.1 + 2 * pawnDir color ∧ mv.toSq.2 = mv.fr.2

instance (b : Board) (color : Color) (mv : Move) : Decidable (isDoublePush b color mv) := by
  unfold isDoublePush
  infer_instance

/-- Claim C6: over the moves the applier is defined on (generated moves with an
occupied source square), a pawn double push sets `en_passant` to the square
passed over, and every other move leaves `en_passant` cleared — the field is
reset unconditionally at the top of `make_move`, so a target survives exactly
one move application. -/
theorem en_passant_window (b : Board) (color : Color) (mv : Move) (pc : Color × Kind)
    (hmem : mv ∈ generate_pseudo b color)
    (hsrc : getc b.board mv.fr.1 mv.fr.2 = some pc) :
    (isDoublePush b color mv →
      (make_move b mv).en_passant = some (mv.fr.1 + pawnDir color, mv.fr.2))
    ∧ (¬ isDoublePush b color mv → (make_move b mv).en_passant = none) := by
  obtain ⟨pcc, pck⟩ := pc
  have hepq : (make_move b mv).en_passant =
      if pck = Kind.P ∧ (mv.toSq.1 - mv.fr.1).natAbs = 2
      then some ((mv.toSq.1 + mv.fr.1).fdiv 2, mv.fr.2) else none := by
    rw [make_move_fields hsrc]
  constructor
  · rintro ⟨hp, ht1, ht2⟩
    rw [hsrc] at hp
    have hp2 := Option.some.inj hp
    rw [Prod.mk.injEq] at hp2
    obtain ⟨rfl, rfl⟩ := hp2
    have habs : (mv.toSq.1 - mv.fr.1).natAbs = 2 := by
      rw [ht1]
      cases pcc <;> simp [pawnDir]
    have hmid : (mv.toSq.1 + mv.fr.1).fdiv 2 = mv.fr.1 + pawnDir pcc := by
      have h2 : mv.toSq.1 + mv.fr.1 = 2 * (mv.fr.1 + pawnDir pcc) := by omega
      rw [h2, Int.mul_fdiv_cancel_left _ (by norm_num)]
    rw [hepq, if_pos ⟨rfl, habs⟩, hmid]
  · intro hns
    rw [hepq]
    apply if_neg
    rintro ⟨rfl, habs⟩
    apply hns
    obtain ⟨r0, c0, hr8, hc8, hcol, hsq⟩ := mem_generate_pseudo hmem
    obtain ⟨γ, hcase⟩ := mem_squareMoves_cases hsq
    rcases hcase with ⟨heq, hbr⟩ | ⟨heq, hbr⟩ | ⟨heq, hbr⟩ | ⟨heq, hbr⟩ | ⟨heq, hbr⟩ | ⟨heq, hbr⟩
    · -- pawn at the scanned square
      obtain ⟨hfr, hcst, hshape⟩ :=
        mem_pawnMoves_cases (by constructor <;> omega) hbr
      have hfr1 : mv.fr.1 = (r0 : Int) := by rw [hfr]
      have hfr2 : mv.fr.2 = (c0 : Int) := by rw [hfr]
      have hγ : γ = color := by
        unfold color_at at hcol
        rw [heq] at hcol
        simpa using hcol
      have hcell : getc b.board mv.fr.1 mv.fr.2 = some (color, Kind.P) := by
        rw [hfr1, hfr2, heq, hγ]
      rcases hshape with ⟨hef, hpn, hto⟩ | ⟨hef, hib, hca, hrest⟩
      · -- en passant move: one rank only
        exfalso
        rw [hto, hfr1] at habs
        cases color <;> simp [pawnDir] at habs
      · rcases hrest with ⟨hto, _⟩ | ⟨hto, hpn, hnp, hguard⟩
        · -- single push or capture: one rank only
          exfalso
          rw [hto, hfr1] at habs
          cases color <;> simp [pawnDir] at habs
        · -- double push: exactly the shape
          refine ⟨hcell, ?_, ?_⟩
          · rw [hfr1]
            rw [show mv.toSq.1 = (r0 : Int) + 2 * pawnDir color from congrArg Prod.fst hto]
          · rw [hfr2]
            exact congrArg Prod.snd hto
    · exfalso
      obtain ⟨hfr, _⟩ := mem_knightMoves hbr
      rw [show mv.fr.1 = (r0 : Int) from by rw [hfr],
          show mv.fr.2 = (c0 : Int) from by rw [hfr], heq] at hsrc
      simp at hsrc
    · exfalso
      obtain ⟨hfr, _⟩ := mem_slideMoves hbr (by decide)
      rw [show mv.fr.1 = (r0 : Int) from by rw [hfr],
          show mv.fr.2 = (c0 : Int) from by rw [hfr], heq] at hsrc
      simp at hsrc
    · exfalso
      obtain ⟨hfr, _⟩ := mem_slideMoves hbr (by decide)
      rw [show mv.fr.1 = (r0 : Int) from by rw [hfr],
          show mv.fr.2 = (c0 : Int) from by rw [hfr], heq] at hsrc
      simp at hsrc
    · exfalso
      obtain ⟨hfr, _⟩ := mem_slideMoves hbr (by decide)
      rw [show mv.fr.1 = (r0 : Int) from by rw [hfr],
          show mv.fr.2 = (c0 : Int) from by rw [hfr], heq] at hsrc
      simp at hsrc
    · rcases hbr with hbr | hbr
      · exfalso
        obtain ⟨hfr, _⟩ := mem_kingSteps hbr
        rw [show mv.fr.1 = (r0 : Int) from by rw [hfr],
            show mv.fr.2 = (c0 : Int) from by rw [hfr], heq] at hsrc
        simp at hsrc
      · exfalso
        obtain ⟨_, _, _, hfr, hto1, _⟩ := mem_castleMoves hbr
        rw [hto1, show mv.fr.1 = homeRow color from by rw [hfr]] at habs
        simp at habs

/-- Witness for C6: from the initial position, the double push e2e4 leaves
`en_passant = (5,4)` (the passed-over square e3), while the single push e2e3
leaves it cleared. -/
theorem en_passant_window_witness :
    (make_move initial_board (Move.mk (6,4) (4,4) none false false)).en_passant = some (5,4)
    ∧ (make_move initial_board (Move.mk (6,4) (5,4) none false false)).en_passant = none := by
  constructor
  · exact (en_passant_window initial_board Color.w (Move.mk (6,4) (4,4) none false false)
      (Color.w, Kind.P) (by decide) (by decide)).1 (by decide)
  · exact (en_passant_window initial_board Color.w (Move.mk (6,4) (5,4) none false false)
      (Color.w, Kind.P) (by decide) (by decide)).2 (by decide)

theorem homeRow_ne_promoRow (color : Color) : homeRow color ≠ promoRow color := by
  cases color <;> decide

theorem getc_moved_grid_promo {b : Board} {mv : Move} {color : Color}
    (hw : WFg b.board) (htr : mv.toSq.1 = 0 ∨ mv.toSq.1 = 7)
    (hc2 : 0 ≤ mv.toSq.2 ∧ mv.toSq.2 < 8) :
    getc (moved_grid b mv color Kind.P) mv.toSq.1 mv.toSq.2
      = some (color, mv.promotion.getD Kind.Q) := by
  have htr2 : 0 ≤ mv.toSq.1 ∧ mv.toSq.1 < 8 := by
    rcases htr with h | h <;> rw [h] <;> exact ⟨by norm_num, by norm_num⟩
  have hw1 : WFg (if mv.is_en_passant = true
      then setc b.board (mv.toSq.1 + if color = Color.w then 1 else -1) mv.toSq.2 none
      else b.board) := by
    split
    · exact WFg_setc hw _ _ _
    · exact hw
  have hmain :
      getc (setc (setc (setc (if mv.is_en_passant = true
          then setc b.board (mv.toSq.1 + if color = Color.w then 1 else -1) mv.toSq.2 none
          else b.board) mv.fr.1 mv.fr.2 none)
          mv.toSq.1 mv.toSq.2 (some (color, Kind.P)))
          mv.toSq.1 mv.toSq.2 (some (color, mv.promotion.getD Kind.Q)))
        mv.toSq.1 mv.toSq.2 = some (color, mv.promotion.getD Kind.Q) :=
    getc_setc_same _ (WFg_setc (WFg_setc hw1 _ _ _) _ _ _) htr2 hc2
  simp only [moved_grid]
  split
  · -- castle relocation cannot touch the promotion square
    split
    · next h1 =>
      rw [getc_setc_other _ (Or.inr (by omega)), getc_setc_other _ (Or.inr (by omega))]
      rw [ite_cond_eq_true _ _ (eq_true (⟨trivial, htr⟩ : True ∧ (mv.toSq.1 = 0 ∨ mv.toSq.1 = 7)))]
      exact hmain
    · split
      · next h2 =>
        rw [getc_setc_other _ (Or.inr (by omega)), getc_setc_other _ (Or.inr (by omega))]
        rw [ite_cond_eq_true _ _ (eq_true (⟨trivial, htr⟩ : True ∧ (mv.toSq.1 = 0 ∨ mv.toSq.1 = 7)))]
        exact hmain
      · split
        · next h3 =>
          rw [getc_setc_other _ (Or.inr (by omega)), getc_setc_other _ (Or.inr (by omega))]
          rw [ite_cond_eq_true _ _ (eq_true (⟨trivial, htr⟩ : True ∧ (mv.toSq.1 = 0 ∨ mv.toSq.1 = 7)))]
          exact hmain
        · split
          · next h4 =>
            rw [getc_setc_other _ (Or.inr (by omega)), getc_setc_other _ (Or.inr (by omega))]
            rw [ite_cond_eq_true _ _ (eq_true (⟨trivial, htr⟩ : True ∧ (mv.toSq.1 = 0 ∨ mv.toSq.1 = 7)))]
            exact hmain
          · rw [ite_cond_eq_true _ _ (eq_true (⟨trivial, htr⟩ : True ∧ (mv.toSq.1 = 0 ∨ mv.toSq.1 = 7)))]
            exact hmain
  · rw [ite_cond_eq_true _ _ (eq_true (⟨trivial, htr⟩ : True ∧ (mv.toSq.1 = 0 ∨ mv.toSq.1 = 7)))]
    exact hmain

/-! ### Claim C7: promotion completeness -/

/-- Counterexample to claim C7 as stated: on `bEpPromo` (white pawn b7,
`en_passant = (0,3)`), `generate_pseudo` emits exactly one pawn move from
(1,2) to the farthest-rank square (0,3) — the en-passant capture — with no
promotion, not 4 moves differing in promotion kind. -/
theorem promotion_ep_counterexample :
    getc bEpPromo.board 1 2 = some (Color.w, Kind.P)
    ∧ promoRow Color.w = 0
    ∧ (generate_pseudo bEpPromo Color.w).filter
        (fun m => decide (m.fr = (1,2) ∧ m.toSq = (0,3)))
      = [Move.mk (1,2) (0,3) none false true] := by
  refine ⟨by decide, by decide, by decide⟩

/-- Claim C7, amended to exclude en-passant captures (which the generator can
emit onto the farthest rank, with no promotion, when the `en_passant` field
points there): every non-en-passant pawn move emitted onto the mover's
farthest rank appears exactly as the 4 promotion variants (queen, rook,
bishop, knight) of its source/destination pair; and `make_move` on a pawn
move reaching the farthest rank places a queen of the mover's color when
`move.promotion` is unset, otherwise the specified kind. -/
theorem promotion_completeness_amended :
    (∀ (b : Board) (color : Color) (m : Move),
      m ∈ generate_pseudo b color →
      m.is_en_passant = false →
      getc b.board m.fr.1 m.fr.2 = some (color, Kind.P) →
      m.toSq.1 = promoRow color →
      ((∀ k, k ∈ promoKinds → Move.mk m.fr m.toSq (some k) false false ∈ generate_pseudo b color)
        ∧ (∃ k, k ∈ promoKinds ∧ m.promotion = some k)
        ∧ (∀ m2, m2 ∈ generate_pseudo b color → m2.fr = m.fr → m2.toSq = m.toSq →
            m2.is_en_passant = false →
            ∃ k, k ∈ promoKinds ∧ m2 = Move.mk m.fr m.toSq (some k) false false)))
    ∧ (∀ (b : Board) (mv : Move) (color : Color),
      WFg b.board →
      getc b.board mv.fr.1 mv.fr.2 = some (color, Kind.P) →
      mv.toSq.1 = promoRow color →
      0 ≤ mv.toSq.2 ∧ mv.toSq.2 < 8 →
      getc (make_move b mv).board mv.toSq.1 mv.toSq.2
        = some (color, mv.promotion.getD Kind.Q)) := by
  constructor
  · intro b color m hmem hep hpw hto
    obtain ⟨r0, c0, hr8, hc8, hcol, hsq⟩ := mem_generate_pseudo hmem
    obtain ⟨γ, hcase⟩ := mem_squareMoves_cases hsq
    rcases hcase with ⟨heq, hbr⟩ | ⟨heq, hbr⟩ | ⟨heq, hbr⟩ | ⟨heq, hbr⟩ | ⟨heq, hbr⟩ | ⟨heq, hbr⟩
    · -- the pawn branch
      obtain ⟨⟨k, hk, hmeq⟩, hcompl⟩ := pawnMoves_promo_complete hbr hep hto
      have hfr : m.fr = ((r0 : Int), (c0 : Int)) := by rw [hmeq]
      refine ⟨?_, ⟨k, hk, by rw [hmeq]⟩, ?_⟩
      · intro k2 hk2
        have hin : Move.mk ((r0 : Int), (c0 : Int)) m.toSq (some k2) false false
            ∈ pawnMoves b color r0 c0 := hcompl k2 hk2
        rw [hfr]
        apply mem_generate_pseudo_of hr8 hc8 hcol
        show Move.mk ((r0 : Int), (c0 : Int)) m.toSq (some k2) false false
          ∈ squareMoves b color (r0 : Int) (c0 : Int)
        unfold squareMoves
        rw [heq]
        exact hin
      · intro m2 hm2 hfr2 hto2 hep2
        obtain ⟨r1, c1, hr18, hc18, hcol1, hsq1⟩ := mem_generate_pseudo hm2
        obtain ⟨γ1, hcase1⟩ := mem_squareMoves_cases hsq1
        have hto21 : m2.toSq.1 = promoRow color := by rw [hto2]; exact hto
        rcases hcase1 with ⟨heq1, hbr1⟩ | ⟨heq1, hbr1⟩ | ⟨heq1, hbr1⟩ | ⟨heq1, hbr1⟩
          | ⟨heq1, hbr1⟩ | ⟨heq1, hbr1⟩
        · obtain ⟨⟨k2, hk2, hm2eq⟩, _⟩ := pawnMoves_promo_complete hbr1 hep2 hto21
          refine ⟨k2, hk2, ?_⟩
          rw [hm2eq, hto2]
          have : ((r1 : Int), (c1 : Int)) = m.fr := by
            rw [← hfr2, hm2eq]
          rw [this]
        · exfalso
          obtain ⟨hfr1, _⟩ := mem_knightMoves hbr1
          rw [show m.fr.1 = (r1 : Int) from by rw [← hfr2, hfr1],
              show m.fr.2 = (c1 : Int) from by rw [← hfr2, hfr1], heq1] at hpw
          simp at hpw
        · exfalso
          obtain ⟨hfr1, _⟩ := mem_slideMoves hbr1 (by decide)
          rw [show m.fr.1 = (r1 : Int) from by rw [← hfr2, hfr1],
              show m.fr.2 = (c1 : Int) from by rw [← hfr2, hfr1], heq1] at hpw
          simp at hpw
        · exfalso
          obtain ⟨hfr1, _⟩ := mem_slideMoves hbr1 (by decide)
          rw [show m.fr.1 = (r1 : Int) from by rw [← hfr2, hfr1],
              show m.fr.2 = (c1 : Int) from by rw [← hfr2, hfr1], heq1] at hpw
          simp at hpw
        · exfalso
          obtain ⟨hfr1, _⟩ := mem_slideMoves hbr1 (by decide)
          rw [show m.fr.1 = (r1 : Int) from by rw [← hfr2, hfr1],
              show m.fr.2 = (c1 : Int) from by rw [← hfr2, hfr1], heq1] at hpw
          simp at hpw
        · rcases hbr1 with hbr1 | hbr1
          · exfalso
            obtain ⟨hfr1, _⟩ := mem_kingSteps hbr1
            rw [show m.fr.1 = (r1 : Int) from by rw [← hfr2, hfr1],
                show m.fr.2 = (c1 : Int) from by rw [← hfr2, hfr1], heq1] at hpw
            simp at hpw
          · exfalso
            obtain ⟨_, _, _, _, hto1, _⟩ := mem_castleMoves hbr1
            rw [hto1] at hto21
            exact homeRow_ne_promoRow color hto21
    · exfalso
      obtain ⟨hfr1, _⟩ := mem_knightMoves hbr
      rw [show m.fr.1 = (r0 : Int) from by rw [hfr1],
          show m.fr.2 = (c0 : Int) from by rw [hfr1], heq] at hpw
      simp at hpw
    · exfalso
      obtain ⟨hfr1, _⟩ := mem_slideMoves hbr (by decide)
      rw [show m.fr.1 = (r0 : Int) from by rw [hfr1],
          show m.fr.2 = (c0 : Int) from by rw [hfr1], heq] at hpw
      simp at hpw
    · exfalso
      obtain ⟨hfr1, _⟩ := mem_slideMoves hbr (by decide)
      rw [show m.fr.1 = (r0 : Int) from by rw [hfr1],
          show m.fr.2 = (c0 : Int) from by rw [hfr1], heq] at hpw
      simp at hpw
    · exfalso
      obtain ⟨hfr1, _⟩ := mem_slideMoves hbr (by decide)
      rw [show m.fr.1 = (r0 : Int) from by rw [hfr1],
          show m.fr.2 = (c0 : Int) from by rw [hfr1], heq] at hpw
      simp at hpw
    · rcases hbr with hbr | hbr
      · exfalso
        obtain ⟨hfr1, _⟩ := mem_kingSteps hbr
        rw [show m.fr.1 = (r0 : Int) from by rw [hfr1],
            show m.fr.2 = (c0 : Int) from by rw [hfr1], heq] at hpw
        simp at hpw
      · exfalso
        obtain ⟨_, _, _, _, hto1, _⟩ := mem_castleMoves hbr
        rw [hto1] at hto
        exact homeRow_ne_promoRow color hto
  · intro b mv color hw hpw hto hc2
    have htr : mv.toSq.1 = 0 ∨ mv.toSq.1 = 7 := by
      rw [hto]; cases color <;> simp [promoRow]
    rw [make_move_fields hpw]
    exact getc_moved_grid_promo hw htr hc2

/-- Witness for the amended C7: on `bEpPromo` the push b7b8=Q is generated, so
all four variants are (shown for the knight), and applying the move with no
promotion set places a queen. -/
theorem promotion_completeness_amended_witness :
    Move.mk (1,2) (0,2) (some Kind.N) false false ∈ generate_pseudo bEpPromo Color.w
    ∧ getc (make_move bEpPromo (Move.mk (1,2) (0,2) none false false)).board 0 2
        = some (Color.w, Kind.Q) := by
  constructor
  · exact (promotion_completeness_amended.1 bEpPromo Color.w
      (Move.mk (1,2) (0,2) (some Kind.Q) false false)
      (by decide) (by decide) (by decide) (by decide)).1 Kind.N (by decide)
  · exact promotion_completeness_amended.2 bEpPromo
      (Move.mk (1,2) (0,2) none false false) Color.w
      (by decide) (by decide) (by decide) (by decide)

/-! ### Claim C10: the plain-move frame of `make_move` -/

theorem moved_grid_plain {b : Board} {mv : Move} {pcc : Color} {pck : Kind}
    (hne : mv.is_en_passant = false) (hnc : mv.is_castle = false)
    (hnpz : ¬(pck = Kind.P ∧ (mv.toSq.1 = 0 ∨ mv.toSq.1 = 7))) :
    moved_grid b mv pcc pck
      = setc (setc b.board mv.fr.1 mv.fr.2 none) mv.toSq.1 mv.toSq.2 (some (pcc, pck)) := by
  simp only [moved_grid, hne, hnc, Bool.false_eq_true, if_false]
  split
  · next hyes => exact absurd hyes hnpz
  · rfl

/-- Claim C10: a generated move that is not a castle, not an en-passant
capture, and not a pawn move reaching the farthest rank changes exactly the
two cells of its source/destination pair: the source becomes empty, the
destination (previously not the mover's piece, so it really changes) receives
the moved piece, and every other cell is untouched. -/
theorem make_move_two_cell_frame (b : Board) (color : Color) (mv : Move)
    (pcc : Color) (pck : Kind)
    (hw : WFg b.board)
    (hmem : mv ∈ generate_pseudo b color)
    (hsrc : getc b.board mv.fr.1 mv.fr.2 = some (pcc, pck))
    (hnc : mv.is_castle = false)
    (hne : mv.is_en_passant = false)
    (hnp : ¬(pck = Kind.P ∧ mv.toSq.1 = promoRow color)) :
    getc (make_move b mv).board mv.toSq.1 mv.toSq.2 = some (pcc, pck)
    ∧ getc (make_move b mv).board mv.fr.1 mv.fr.2 = none
    ∧ getc b.board mv.toSq.1 mv.toSq.2 ≠ some (pcc, pck)
    ∧ (∀ r c : Int, ¬(r = mv.fr.1 ∧ c = mv.fr.2) → ¬(r = mv.toSq.1 ∧ c = mv.toSq.2) →
        getc (make_move b mv).board r c = getc b.board r c) := by
  obtain ⟨r0, c0, hr8, hc8, hcol, hsq⟩ := mem_generate_pseudo hmem
  obtain ⟨γ, hcase⟩ := mem_squareMoves_cases hsq
  have hbundle : mv.fr = ((r0 : Int), (c0 : Int))
      ∧ in_bounds mv.toSq.1 mv.toSq.2 = true
      ∧ color_at b mv.toSq.1 mv.toSq.2 ≠ some color
      ∧ (mv.toSq.1 ≠ (r0 : Int) ∨ mv.toSq.2 ≠ (c0 : Int))
      ∧ ¬(pck = Kind.P ∧ (mv.toSq.1 = 0 ∨ mv.toSq.1 = 7)) := by
    rcases hcase with ⟨heq, hbr⟩ | ⟨heq, hbr⟩ | ⟨heq, hbr⟩ | ⟨heq, hbr⟩ | ⟨heq, hbr⟩ | ⟨heq, hbr⟩
    · -- pawn
      obtain ⟨hfr, _, hshape⟩ := mem_pawnMoves_cases (by constructor <;> omega) hbr
      have hsrc0 : getc b.board (r0 : Int) (c0 : Int) = some (pcc, pck) := by
        rw [show ((r0 : Int)) = mv.fr.1 from by rw [hfr],
            show ((c0 : Int)) = mv.fr.2 from by rw [hfr]]
        exact hsrc
      have hpk : pck = Kind.P := by
        rw [heq] at hsrc0
        have h2 := Option.some.inj hsrc0
        rw [Prod.mk.injEq] at h2
        exact h2.2.symm
      rcases hshape with ⟨hef, _, _⟩ | ⟨hef, hib, hca, hrest⟩
      · rw [hef] at hne; simp at hne
      · refine ⟨hfr, hib, hca, ?_, ?_⟩
        · rcases hrest with ⟨hto1, _⟩ | ⟨htoeq, _, _, _⟩
          · left
            rw [hto1]
            cases color <;> simp [pawnDir]
          · left
            rw [show mv.toSq.1 = (r0 : Int) + 2 * pawnDir color from congrArg Prod.fst htoeq]
            cases color <;> simp [pawnDir]
        · rintro ⟨_, hz⟩
          rcases hrest with ⟨hto1, hsub⟩ | ⟨_, _, hnz, _⟩
          · rcases hsub with ⟨hnz, _⟩ | ⟨hinz, _⟩
            · exact hnz hz
            · apply hnp
              refine ⟨hpk, ?_⟩
              rw [hto1]
              rw [hto1] at hinz
              cases color with
              | w =>
                simp [pawnDir] at hinz ⊢
                simp [promoRow]
                omega
              | b =>
                simp [pawnDir] at hinz ⊢
                simp [promoRow]
                omega
          · exact hnz hz
    · -- knight
      obtain ⟨hfr, _, _, _, hib, hca, hnefr⟩ := mem_knightMoves hbr
      have hpk : pck = Kind.N := by
        rw [show mv.fr.1 = (r0 : Int) from by rw [hfr],
            show mv.fr.2 = (c0 : Int) from by rw [hfr], heq] at hsrc
        have h2 := Option.some.inj hsrc
        rw [Prod.mk.injEq] at h2
        exact h2.2.symm
      exact ⟨hfr, hib, hca, hnefr, by simp [hpk]⟩
    · obtain ⟨hfr, _, _, _, hib, hca, hnefr⟩ := mem_slideMoves hbr (by decide)
      have hpk : pck = Kind.B := by
        rw [show mv.fr.1 = (r0 : Int) from by rw [hfr],
            show mv.fr.2 = (c0 : Int) from by rw [hfr], heq] at hsrc
        have h2 := Option.some.inj hsrc
        rw [Prod.mk.injEq] at h2
        exact h2.2.symm
      exact ⟨hfr, hib, hca, hnefr, by simp [hpk]⟩
    · obtain ⟨hfr, _, _, _, hib, hca, hnefr⟩ := mem_slideMoves hbr (by decide)
      have hpk : pck = Kind.R := by
        rw [show mv.fr.1 = (r0 : Int) from by rw [hfr],
            show mv.fr.2 = (c0 : Int) from by rw [hfr], heq] at hsrc
        have h2 := Option.some.inj hsrc
        rw [Prod.mk.injEq] at h2
        exact h2.2.symm
      exact ⟨hfr, hib, hca, hnefr, by simp [hpk]⟩
    · obtain ⟨hfr, _, _, _, hib, hca, hnefr⟩ := mem_slideMoves hbr (by decide)
      have hpk : pck = Kind.Q := by
        rw [show mv.fr.1 = (r0 : Int) from by rw [hfr],
            show mv.fr.2 = (c0 : Int) from by rw [hfr], heq] at hsrc
        have h2 := Option.some.inj hsrc
        rw [Prod.mk.injEq] at h2
        exact h2.2.symm
      exact ⟨hfr, hib, hca, hnefr, by simp [hpk]⟩
    · rcases hbr with hbr | hbr
      · obtain ⟨hfr, _, _, _, hib, hca, hnefr⟩ := mem_kingSteps hbr
        have hpk : pck = Kind.K := by
          rw [show mv.fr.1 = (r0 : Int) from by rw [hfr],
              show mv.fr.2 = (c0 : Int) from by rw [hfr], heq] at hsrc
          have h2 := Option.some.inj hsrc
          rw [Prod.mk.injEq] at h2
          exact h2.2.symm
        exact ⟨hfr, hib, hca, hnefr, by simp [hpk]⟩
      · obtain ⟨hct, _⟩ := mem_castleMoves hbr
        rw [hct] at hnc
        simp at hnc
  obtain ⟨hfr, hib, hca, hnefr, hnpz⟩ := hbundle
  have hpcc : pcc = color := by
    unfold color_at at hcol
    rw [show ((r0 : Int)) = mv.fr.1 from by rw [hfr],
        show ((c0 : Int)) = mv.fr.2 from by rw [hfr], hsrc] at hcol
    simpa using hcol
  have hib2 : 0 ≤ mv.toSq.1 ∧ mv.toSq.1 < 8 ∧ 0 ≤ mv.toSq.2 ∧ mv.toSq.2 < 8 := by
    simpa [in_bounds] using hib
  have hfr1 : mv.fr.1 = (r0 : Int) := by rw [hfr]
  have hfr2 : mv.fr.2 = (c0 : Int) := by rw [hfr]
  have hgrid : (make_move b mv).board
      = setc (setc b.board mv.fr.1 mv.fr.2 none) mv.toSq.1 mv.toSq.2 (some (pcc, pck)) := by
    rw [make_move_fields hsrc]
    exact moved_grid_plain hne hnc hnpz
  have hfrb1 : 0 ≤ mv.fr.1 ∧ mv.fr.1 < 8 := by rw [hfr1]; constructor <;> omega
  have hfrb2 : 0 ≤ mv.fr.2 ∧ mv.fr.2 < 8 := by rw [hfr2]; constructor <;> omega
  refine ⟨?_, ?_, ?_, ?_⟩
  · rw [hgrid]
    exact getc_setc_same _ (WFg_setc hw _ _ _) ⟨hib2.1, hib2.2.1⟩ ⟨hib2.2.2.1, hib2.2.2.2⟩
  · have h1 : mv.toSq.1 ≠ mv.fr.1 ∨ mv.toSq.2 ≠ mv.fr.2 := by
      rcases hnefr with h | h
      · left
        rw [hfr1]
        exact h
      · right
        rw [hfr2]
        exact h
    rw [hgrid, getc_setc_other _ h1]
    exact getc_setc_same _ hw hfrb1 hfrb2
  · intro hcontra
    apply hca
    unfold color_at
    rw [hcontra, hpcc]
    rfl
  · intro r c hnf hnt
    have h1 : mv.toSq.1 ≠ r ∨ mv.toSq.2 ≠ c := by omega
    have h2 : mv.fr.1 ≠ r ∨ mv.fr.2 ≠ c := by omega
    rw [hgrid, getc_setc_other _ h1, getc_setc_other _ h2]

/-- Witness for C10: the opening knight move g1f3 empties g1, puts the white
knight on f3, and leaves the far corner a8 untouched. -/
theorem make_move_two_cell_frame_witness :
    getc (make_move initial_board (Move.mk (7,6) (5,5) none false false)).board 5 5
      = some (Color.w, Kind.N)
    ∧ getc (make_move initial_board (Move.mk (7,6) (5,5) none false false)).board 7 6 = none
    ∧ getc (make_move initial_board (Move.mk (7,6) (5,5) none false false)).board 0 0
      = getc initial_board.board 0 0 := by
  obtain ⟨h1, h2, h3, h4⟩ := make_move_two_cell_frame initial_board Color.w
    (Move.mk (7,6) (5,5) none false false) Color.w Kind.N
    (by decide) (by decide) (by decide) (by decide) (by decide) (by decide)
  exact ⟨h1, h2, h4 0 0 (by decide) (by decide)⟩
